import Mathlib

/-!
Verification of the download-orchestration core of `src/main.py` (a Kivy
YouTube downloader).  Each Python function relevant to the specification is
shallowly embedded as an executable Lean definition, translated directly from
the source:

* `fix_shorts_url`       (main.py 162-166) — URL canonicalization,
* `progress_hook`        (main.py 525-532) — percent computation,
* `record_recent`        (main.py 546-550) — the "recent" history ledger,
* `buildChoices`/`catalog` (main.py 376-387) — the quality catalog,
* `start_download`       (main.py 437-445) — synchronous start validation,
* `safe_name` / `download_thread_saf` / `my_hook` (main.py 460-503) — the
  SAF (scoped-storage) download path with its 1 MiB copy loop.

Machine integers are modelled as `Nat` (Python ints are unbounded and all the
quantities involved are non-negative); Python float division followed by
`int(...)` truncation on non-negative values is modelled as exact `Nat` floor
division.  Side effects are modelled either as explicit state passing
(`LedgerState`) or as event traces (`Ev`).
-/

namespace Main

/-! ### URL canonicalization (`fix_shorts_url`, main.py 162-166)

Python:
```
def fix_shorts_url(url: str) -> str:
    m = re.search(r"youtube\.com/shorts/([A-Za-z0-9_-]{11})", url)
    if m:
        return f"https://www.youtube.com/watch?v={m.group(1)}"
    return url
```
`re.search` finds the leftmost position at which the literal
`youtube.com/shorts/` is followed by 11 characters of the class
`[A-Za-z0-9_-]`; the embedding scans positions left to right. -/

/-- The character class `[A-Za-z0-9_-]` of the shorts-id regex. -/
def idChar (c : Char) : Bool :=
  ('A' ≤ c && c ≤ 'Z') || ('a' ≤ c && c ≤ 'z') || ('0' ≤ c && c ≤ '9') ||
    c == '_' || c == '-'

/-- The literal part of the regex. -/
def shortsLit : List Char := "youtube.com/shorts/".data

/-- The fixed prefix of the rewritten URL. -/
def watchLit : List Char := "https://www.youtube.com/watch?v=".data

/-- Does the regex match starting exactly at the head of `l`?  If so, return
the 11 captured id characters. -/
def shortsMatchAt (l : List Char) : Option (List Char) :=
  if shortsLit.isPrefixOf l = true then
    if ((l.drop shortsLit.length).take 11).length = 11 ∧
        ((l.drop shortsLit.length).take 11).all idChar = true then
      some ((l.drop shortsLit.length).take 11)
    else none
  else none

/-- `re.search`: leftmost match, scanning start positions left to right. -/
def shortsSearch : List Char → Option (List Char)
  | [] => none
  | c :: rest =>
    match shortsMatchAt (c :: rest) with
    | some i => some i
    | none => shortsSearch rest

/-- Embedding of `fix_shorts_url` (main.py 162-166). -/
def fix_shorts_url (url : String) : String :=
  match shortsSearch url.data with
  | some i => String.mk (watchLit ++ i)
  | none => url

theorem isPrefixOf_iff_exists (p : List Char) :
    ∀ l : List Char, p.isPrefixOf l = true ↔ ∃ t, l = p ++ t := by
  induction p with
  | nil =>
    intro l
    simp [List.isPrefixOf]
  | cons a as ih =>
    intro l
    cases l with
    | nil =>
      simp [List.isPrefixOf]
    | cons b bs =>
      simp only [List.isPrefixOf, Bool.and_eq_true, beq_iff_eq, ih,
        List.cons_append, List.cons.injEq]
      constructor
      · rintro ⟨rfl, t, rfl⟩
        exact ⟨t, rfl, rfl⟩
      · rintro ⟨t, rfl, rfl⟩
        exact ⟨rfl, t, rfl⟩

theorem shortsMatchAt_sound {l i : List Char} (h : shortsMatchAt l = some i) :
    ∃ post, l = shortsLit ++ i ++ post ∧ i.length = 11 ∧ i.all idChar = true := by
  unfold shortsMatchAt at h
  split at h
  · split at h
    · rename_i hpre hcond
      obtain ⟨t, rfl⟩ := (isPrefixOf_iff_exists shortsLit _).mp hpre
      rw [List.drop_left] at h hcond
      obtain ⟨hlen, hall⟩ := hcond
      cases h
      refine ⟨t.drop 11, ?_, hlen, hall⟩
      rw [List.append_assoc, List.take_append_drop]
    · exact absurd h (by simp)
  · exact absurd h (by simp)

theorem shortsMatchAt_complete {i : List Char} (post : List Char)
    (hlen : i.length = 11) (hall : i.all idChar = true) :
    shortsMatchAt (shortsLit ++ (i ++ post)) = some i := by
  unfold shortsMatchAt
  have hpre : shortsLit.isPrefixOf (shortsLit ++ (i ++ post)) = true :=
    (isPrefixOf_iff_exists shortsLit _).mpr ⟨i ++ post, rfl⟩
  rw [if_pos hpre, List.drop_left, List.take_left' hlen, if_pos ⟨hlen, hall⟩]

theorem shortsSearch_sound :
    ∀ {l i : List Char}, shortsSearch l = some i →
      ∃ pre post, l = pre ++ shortsLit ++ i ++ post ∧
        i.length = 11 ∧ i.all idChar = true := by
  intro l
  induction l with
  | nil => intro i h; simp [shortsSearch] at h
  | cons c rest ih =>
    intro i h
    rw [shortsSearch] at h
    cases hm : shortsMatchAt (c :: rest) with
    | some j =>
      rw [hm] at h
      cases h
      obtain ⟨post, hdec, hlen, hall⟩ := shortsMatchAt_sound hm
      exact ⟨[], post, by simpa using hdec, hlen, hall⟩
    | none =>
      rw [hm] at h
      obtain ⟨pre, post, hdec, hlen, hall⟩ := ih h
      exact ⟨c :: pre, post, by simp [hdec], hlen, hall⟩

theorem shortsSearch_none :
    ∀ {l : List Char}, shortsSearch l = none →
      ∀ pre i post, l = pre ++ shortsLit ++ i ++ post →
        i.length = 11 → i.all idChar = true → False := by
  intro l
  induction l with
  | nil =>
    intro _ pre i post hdec hlen _
    have := congrArg List.length hdec
    simp [shortsLit] at this
    omega
  | cons c rest ih =>
    intro h pre i post hdec hlen hall
    rw [shortsSearch] at h
    cases hm : shortsMatchAt (c :: rest) with
    | some j => rw [hm] at h; exact absurd h (by simp)
    | none =>
      rw [hm] at h
      cases pre with
      | nil =>
        have : shortsMatchAt (shortsLit ++ (i ++ post)) = some i :=
          shortsMatchAt_complete post hlen hall
        rw [List.nil_append, List.append_assoc] at hdec
        rw [hdec] at hm
        rw [hm] at this
        exact absurd this (by simp)
      | cons c' pre' =>
        have hc : c = c' ∧ rest = pre' ++ shortsLit ++ i ++ post := by
          simpa using hdec
        exact ih h pre' i post hc.2 hlen hall

theorem shortsSearch_watch_none {i : List Char} (hlen : i.length = 11) :
    shortsSearch (watchLit ++ i) = none := by
  cases hs : shortsSearch (watchLit ++ i) with
  | none => rfl
  | some j =>
    exfalso
    obtain ⟨pre, post, hdec, hjlen, _⟩ := shortsSearch_sound hs
    have hlens := congrArg List.length hdec
    simp only [List.length_append, hlen, hjlen] at hlens
    have hwl : watchLit.length = 32 := by decide
    have hsl : shortsLit.length = 19 := by decide
    rw [hwl, hsl] at hlens
    have hple : pre.length ≤ 13 := by omega
    have hdrop : watchLit.drop pre.length ++ i = shortsLit ++ (j ++ post) := by
      have h1 : (watchLit ++ i).drop pre.length =
          watchLit.drop pre.length ++ i :=
        List.drop_append_of_le_length (by omega)
      have h2 : (pre ++ (shortsLit ++ (j ++ post))).drop pre.length =
          shortsLit ++ (j ++ post) := List.drop_left pre _
      rw [List.append_assoc, List.append_assoc] at hdec
      rw [← h1, hdec, h2]
    have htake : (watchLit.drop pre.length).take 19 = shortsLit := by
      have h3 : (watchLit.drop pre.length ++ i).take 19 =
          (watchLit.drop pre.length).take 19 :=
        List.take_append_of_le_length (by simp [hwl]; omega)
      have h4 : (shortsLit ++ (j ++ post)).take 19 = shortsLit :=
        List.take_left' hsl
      rw [← h3, hdrop, h4]
    revert htake
    set p := pre.length with hp
    clear_value p
    interval_cases p <;> decide

/-- C9: a URL whose character sequence contains `youtube.com/shorts/`
followed by 11 id-class characters is rewritten to
`https://www.youtube.com/watch?v=` followed by the leftmost such 11-character
id; every other URL is returned unchanged by `fix_shorts_url`. -/
theorem fix_shorts_url_spec (url : String) :
    ((∃ i, shortsSearch url.data = some i) ↔
      (∃ pre i post, url.data = pre ++ shortsLit ++ i ++ post ∧
        i.length = 11 ∧ i.all idChar = true)) ∧
    (∀ i, shortsSearch url.data = some i →
      fix_shorts_url url = String.mk (watchLit ++ i) ∧
        i.length = 11 ∧ i.all idChar = true ∧
        ∃ pre post, url.data = pre ++ shortsLit ++ i ++ post) ∧
    (shortsSearch url.data = none → fix_shorts_url url = url) := by
  refine ⟨⟨?_, ?_⟩, ?_, ?_⟩
  · rintro ⟨i, hi⟩
    obtain ⟨pre, post, hdec, hlen, hall⟩ := shortsSearch_sound hi
    exact ⟨pre, i, post, hdec, hlen, hall⟩
  · rintro ⟨pre, i, post, hdec, hlen, hall⟩
    cases hs : shortsSearch url.data with
    | some j => exact ⟨j, rfl⟩
    | none => exact absurd (shortsSearch_none hs pre i post hdec hlen hall) id
  · intro i hi
    obtain ⟨pre, post, hdec, hlen, hall⟩ := shortsSearch_sound hi
    refine ⟨?_, hlen, hall, pre, post, hdec⟩
    unfold fix_shorts_url
    rw [hi]
  · intro h
    unfold fix_shorts_url
    rw [h]

/-- C9 witness: the spec theorem applied to the two scenario URLs — the
shorts URL is rewritten to the canonical watch URL, the watch URL is
unchanged. -/
theorem fix_shorts_url_spec_witness :
    fix_shorts_url "https://youtube.com/shorts/AbCdEfGhIjK" =
      "https://www.youtube.com/watch?v=AbCdEfGhIjK" ∧
    fix_shorts_url "https://youtube.com/watch?v=xyz" =
      "https://youtube.com/watch?v=xyz" := by
  constructor
  · have h := ((fix_shorts_url_spec
      "https://youtube.com/shorts/AbCdEfGhIjK").2.1 "AbCdEfGhIjK".data
      (by decide)).1
    rw [h]
    decide
  · exact (fix_shorts_url_spec "https://youtube.com/watch?v=xyz").2.2
      (by decide)

/-- C10: `fix_shorts_url` is idempotent — the rewritten watch URL never
matches the shorts pattern again, and unmatched URLs pass through unchanged. -/
theorem fix_shorts_url_idem (url : String) :
    fix_shorts_url (fix_shorts_url url) = fix_shorts_url url := by
  cases hs : shortsSearch url.data with
  | none =>
    have h1 : fix_shorts_url url = url := by
      unfold fix_shorts_url
      rw [hs]
    rw [h1]
    exact h1
  | some i =>
    obtain ⟨pre, post, hdec, hlen, hall⟩ := shortsSearch_sound hs
    have h1 : fix_shorts_url url = String.mk (watchLit ++ i) := by
      unfold fix_shorts_url
      rw [hs]
    have h2 : fix_shorts_url (String.mk (watchLit ++ i)) =
        String.mk (watchLit ++ i) := by
      unfold fix_shorts_url
      rw [show (String.mk (watchLit ++ i)).data = watchLit ++ i from rfl,
        shortsSearch_watch_none hlen]
    rw [h1, h2]

/-! ### Event traces

UI / IO side effects of the download path are modelled as events. -/

/-- Observable effects of the download path. -/
inductive Ev where
  /-- `self.progress = v` / `self._update_progress(v)` scheduled. -/
  | update_progress (v : Nat)
  /-- `self._set_status(msg)`. -/
  | set_status (msg : String)
  /-- `ydl.extract_info(url, download=False)`. -/
  | extract_info
  /-- `self._saf.create_file(filename)`. -/
  | create_file (filename : String)
  /-- `ydl.download([url])` — the byte transfer (which writes the local
  temporary file) is started. -/
  | run_download
  /-- `os.write(dst.fd, chunk)` of `n` bytes. -/
  | write_chunk (n : Nat)
  /-- the SAF output stream is closed (`SAFOutput.__exit__`). -/
  | close_output
  /-- `os.unlink(tmp_path)`. -/
  | unlink_tmp
  /-- `self._record_recent(title)`. -/
  | record (title : String)
deriving DecidableEq

/-! ### Progress Reporter (`_progress_hook`, main.py 525-532)

Python:
```
def _progress_hook(self, d):
    if d["status"] == "downloading":
        total = d.get("total_bytes") or d.get("total_bytes_estimate") or 1
        downloaded = d.get("downloaded_bytes") or 0
        percent = int(downloaded / total * 100)
        Clock.schedule_once(lambda dt: self._update_progress(percent))
    elif d["status"] == "finished":
        Clock.schedule_once(lambda dt: self._update_progress(100))
```
`int(downloaded / total * 100)` on non-negative values is floor division,
modelled exactly as `downloaded * 100 / total` over `Nat`. -/

/-- A yt-dlp progress dict: the fields the hooks read.  `tmp_size` models the
size in bytes of the file at `d["filepath"]` (read by `_my_hook` on
`finished`). -/
structure HookDict where
  status : String
  total_bytes : Option Nat
  total_bytes_estimate : Option Nat
  downloaded_bytes : Option Nat
  tmp_size : Nat
deriving DecidableEq

/-- Python `x or y` on an optional non-negative int: `None` and `0` are
falsy. -/
def orFalsy (x : Option Nat) (y : Nat) : Nat :=
  match x with
  | none => y
  | some n => if n = 0 then y else n

/-- `d.get("total_bytes") or d.get("total_bytes_estimate") or 1`. -/
def totalOf (d : HookDict) : Nat :=
  orFalsy d.total_bytes (orFalsy d.total_bytes_estimate 1)

/-- `int(downloaded / total * 100)` with
`downloaded = d.get("downloaded_bytes") or 0`. -/
def pctOf (d : HookDict) : Nat :=
  (d.downloaded_bytes.getD 0) * 100 / totalOf d

/-- Embedding of `_progress_hook` (main.py 525-532): the UI events it
schedules. -/
def progress_hook (d : HookDict) : List Ev :=
  if d.status = "downloading" then [Ev.update_progress (pctOf d)]
  else if d.status = "finished" then [Ev.update_progress 100]
  else []

/-! ### History Ledger (`_record_recent`, main.py 546-550)

Python:
```
def _record_recent(self, title: str):
    now = datetime.datetime.now().strftime("%Y-%m-%d %H:%M")
    self.recent.append({"title": title, "time": now})
    self.store.put("recent", items=self.recent)
```
The wall-clock timestamp is an input of the model. -/

/-- One `{"title": ..., "time": ...}` entry of the recent list. -/
structure HistEntry where
  title : String
  time : String
deriving DecidableEq

/-- The in-memory `self.recent` list together with the `items` list persisted
under the `"recent"` key of the JSON store. -/
structure LedgerState where
  recent : List HistEntry
  stored : List HistEntry
deriving DecidableEq

/-- Embedding of `_record_recent` (main.py 546-550): append the entry and
persist the whole list. -/
def record_recent (s : LedgerState) (e : HistEntry) : LedgerState :=
  ⟨s.recent ++ [e], s.recent ++ [e]⟩

/-- A whole sequence of `_record_recent` calls. -/
def record_many (s : LedgerState) (es : List HistEntry) : LedgerState :=
  es.foldl record_recent s

/-! ### Filename sanitization (`_download_thread`, main.py 468-469)

Python:
```
safe_name = "".join(c if c not in r'\/:*?"<>|' else "_" for c in title)
filename = f"{safe_name}.{ext}"
``` -/

/-- The characters of the raw string `r'\/:*?"<>|'`. -/
def badChars : List Char := ['\\', '/', ':', '*', '?', '\"', '<', '>', '|']

/-- Embedding of the `safe_name` computation (main.py 468). -/
def safe_name (title : String) : String :=
  String.mk (title.data.map (fun c => if c ∈ badChars then '_' else c))

/-- `filename = f"{safe_name}.{ext}"` (main.py 469). -/
def sanitizedFilename (title ext : String) : String :=
  safe_name title ++ "." ++ ext

theorem record_many_recent (es : List HistEntry) :
    ∀ s : LedgerState, (record_many s es).recent = s.recent ++ es := by
  induction es with
  | nil => intro s; simp [record_many]
  | cons e es ih =>
    intro s
    have h : record_many s (e :: es) = record_many (record_recent s e) es := rfl
    rw [h, ih]
    simp [record_recent]

/-- C1 counterexample: after 51 `append` calls on an empty ledger the ledger
holds 51 entries — `_record_recent` never evicts, so the 50-entry cap of the
claim is violated. -/
theorem record_recent_cap_counterexample :
    (record_many ⟨[], []⟩
        (List.replicate 51 ⟨"t", "2025-01-01 00:00"⟩)).recent.length = 51 ∧
    ¬(51 ≤ 50) := by
  refine ⟨?_, by omega⟩
  rw [record_many_recent]
  simp

/-- C1 amended: the History Ledger is unbounded — `_record_recent` appends
the new entry at the end (no eviction of any kind), so after appending `es`
the ledger is exactly the old ledger followed by `es`, its length grows by
`es.length`, and the whole list is persisted after every single append. -/
theorem record_recent_amended (s : LedgerState) (es : List HistEntry) :
    (record_many s es).recent = s.recent ++ es ∧
    (record_many s es).recent.length = s.recent.length + es.length ∧
    (∀ e : HistEntry, (record_recent s e).stored = (record_recent s e).recent) := by
  refine ⟨record_many_recent es s, ?_, fun e => rfl⟩
  rw [record_many_recent]
  simp

/-- C2 counterexample: `_progress_hook` does not clamp.  With unknown totals
(`total_bytes` and `total_bytes_estimate` absent) and 5 downloaded bytes it
emits 500, outside [0,100]; with `downloaded == total` it emits 100 while
still `downloading` (not clamped to [0,99]); and with non-decreasing
`downloaded_bytes` (50 then 50) but a changed total the emitted percent drops
from 50 to 25. -/
theorem progress_hook_counterexample :
    progress_hook ⟨"downloading", none, none, some 5, 0⟩ =
      [Ev.update_progress 500] ∧
    ¬(500 ≤ 100) ∧
    progress_hook ⟨"downloading", some 10, none, some 10, 0⟩ =
      [Ev.update_progress 100] ∧
    progress_hook ⟨"downloading", some 100, none, some 50, 0⟩ =
      [Ev.update_progress 50] ∧
    progress_hook ⟨"downloading", some 200, none, some 50, 0⟩ =
      [Ev.update_progress 25] := by
  refine ⟨by decide, by omega, by decide, by decide, by decide⟩

theorem orFalsy_pos {x : Option Nat} {y : Nat} (hy : 1 ≤ y) :
    1 ≤ orFalsy x y := by
  unfold orFalsy
  cases x with
  | none => exact hy
  | some n => dsimp; split <;> omega

/-- C2 amended: while `downloading` the hook emits exactly
`⌊downloaded·100/total⌋` with `total` falling back from `total_bytes` to
`total_bytes_estimate` to 1 — unclamped, so it can reach or exceed 100 before
completion; for a fixed effective total and non-decreasing downloaded bytes
the emitted percent is non-decreasing; a `finished` callback always emits
exactly 100; the effective denominator is never zero. -/
theorem progress_hook_amended :
    (∀ d : HookDict, d.status = "downloading" →
      progress_hook d = [Ev.update_progress (pctOf d)]) ∧
    (∀ d : HookDict, d.status = "finished" →
      progress_hook d = [Ev.update_progress 100]) ∧
    (∀ d1 d2 : HookDict, d1.status = "downloading" → d2.status = "downloading" →
      totalOf d1 = totalOf d2 →
      d1.downloaded_bytes.getD 0 ≤ d2.downloaded_bytes.getD 0 →
      pctOf d1 ≤ pctOf d2) ∧
    (∀ d : HookDict, 1 ≤ totalOf d) := by
  refine ⟨?_, ?_, ?_, ?_⟩
  · intro d h
    simp [progress_hook, h]
  · intro d h
    simp [progress_hook, h]
  · intro d1 d2 _ _ htot hdl
    unfold pctOf
    rw [htot]
    exact Nat.div_le_div_right (Nat.mul_le_mul_right 100 hdl)
  · intro d
    exact orFalsy_pos (orFalsy_pos le_rfl)

/-- C2 witness: the amended theorem applied at concrete callbacks — percent
is monotone for a fixed total, and a finished callback emits exactly 100. -/
theorem progress_hook_amended_witness :
    pctOf ⟨"downloading", some 200, none, some 50, 0⟩ ≤
      pctOf ⟨"downloading", some 200, none, some 100, 0⟩ ∧
    progress_hook ⟨"finished", none, none, none, 0⟩ =
      [Ev.update_progress 100] :=
  ⟨progress_hook_amended.2.2.1 _ _ rfl rfl rfl (by decide),
   progress_hook_amended.2.1 _ rfl⟩

theorem zip_map_self {α β : Type} (f : α → β) :
    ∀ l : List α, ∀ p ∈ (l.map f).zip l, p.1 = f p.2 := by
  intro l
  induction l with
  | nil => simp
  | cons a l ih =>
    intro p hp
    rw [List.map_cons, List.zip_cons_cons, List.mem_cons] at hp
    cases hp with
    | inl h => rw [h]
    | inr h => exact ih p h

/-- C6 counterexample: the sanitized name is not truncated — a 101-character
title yields a 101-character `safe_name`, violating the claimed 100-character
cap. -/
theorem safe_name_no_truncation :
    (safe_name (String.mk (List.replicate 101 'a'))).data.length = 101 ∧
    ¬(101 ≤ 100) := by
  refine ⟨?_, by omega⟩
  simp [safe_name]

/-- C6 amended: `safe_name` replaces every character of the set
`\ / : * ? " < > |` with an underscore and keeps every other character; the
length is always preserved — there is no truncation to 100 characters.  No
forbidden character survives in the output. -/
theorem safe_name_amended (title : String) :
    (safe_name title).data.length = title.data.length ∧
    (∀ p ∈ (safe_name title).data.zip title.data,
      p.1 = if p.2 ∈ badChars then '_' else p.2) ∧
    (∀ c ∈ (safe_name title).data, c ∉ badChars) := by
  refine ⟨by simp [safe_name], ?_, ?_⟩
  · intro p hp
    exact zip_map_self (fun c => if c ∈ badChars then '_' else c)
      title.data p hp
  · intro c hc
    simp only [safe_name, List.mem_map] at hc
    obtain ⟨a, _, rfl⟩ := hc
    split
    · decide
    · assumption

/-- C6 witness: the amended theorem applied to the title `"a:b"` — the colon
is replaced by an underscore and the underscore is not a forbidden
character. -/
theorem safe_name_amended_witness :
    ('_', ':') = (('_', ':') : Char × Char) ∧
    (('_', ':') : Char × Char).1 =
      (if (('_', ':') : Char × Char).2 ∈ badChars then '_'
        else (('_', ':') : Char × Char).2) ∧
    '_' ∉ badChars :=
  ⟨rfl, (safe_name_amended "a:b").2.1 ('_', ':') (by decide),
   (safe_name_amended "a:b").2.2 '_' (by decide)⟩

/-! ### Start validation (`start_download`, main.py 437-445)

Python:
```
def start_download(self):
    url = self.root.ids.url_field.text.strip()
    if not url:
        return self._show_dialog("Please paste a YouTube URL.")
    if platform == 'android' and not (self._default_path or self._saf):
        return self._show_dialog("Folder error – restart the app.")
    if not self._selected_format:
        return self._show_dialog("Please select a quality first.")
    threading.Thread(target=self._download_thread, args=(url,), daemon=True).start()
```
There is no check whatsoever of whether a download thread is already
running; `session_active` models that ambient fact. -/

/-- ASCII whitespace stripped by Python `str.strip()` (the titles/URLs at
hand are ASCII; Unicode whitespace is modelled the same way). -/
def pyWs (c : Char) : Bool :=
  c == ' ' || c == '\t' || c == '\n' || c == '\r' || c == '\x0b' || c == '\x0c'

/-- Python `str.strip()`. -/
def pyStrip (l : List Char) : List Char :=
  ((l.dropWhile pyWs).reverse.dropWhile pyWs).reverse

/-- Python truthiness of `self._selected_format` (a string or `None`). -/
def pyTruthyStr : Option String → Bool
  | none => false
  | some s => !(s.data.isEmpty)

/-- The app state read by `start_download`. -/
structure AppState where
  /-- `self.root.ids.url_field.text`. -/
  url_text : String
  /-- `platform == 'android'`. -/
  is_android : Bool
  /-- truthiness of `self._default_path`. -/
  default_path_set : Bool
  /-- truthiness of `self._saf`. -/
  saf_set : Bool
  /-- `self._selected_format`. -/
  selected_format : Option String
  /-- whether a download worker thread is currently running (ambient fact,
  never read by `start_download`). -/
  session_active : Bool
deriving DecidableEq

/-- The synchronous outcome of `start_download`. -/
inductive StartOutcome where
  /-- `self._show_dialog(msg)` and return. -/
  | dialog (msg : String)
  /-- a new `_download_thread` worker is spawned. -/
  | spawn_download
deriving DecidableEq

/-- Embedding of `start_download` (main.py 437-445). -/
def start_download (s : AppState) : StartOutcome :=
  if (pyStrip s.url_text.data).isEmpty then
    StartOutcome.dialog "Please paste a YouTube URL."
  else if s.is_android && !(s.default_path_set || s.saf_set) then
    StartOutcome.dialog "Folder error – restart the app."
  else if !(pyTruthyStr s.selected_format) then
    StartOutcome.dialog "Please select a quality first."
  else StartOutcome.spawn_download

/-- Replace the ambient `session_active` flag. -/
def setSessionActive (s : AppState) (b : Bool) : AppState :=
  ⟨s.url_text, s.is_android, s.default_path_set, s.saf_set,
    s.selected_format, b⟩

/-- C4 counterexample: with a valid URL and a selected quality and a session
already active, `start_download` spawns a second concurrent download thread
instead of rejecting with `SessionBusy`. -/
theorem start_download_busy_counterexample :
    start_download ⟨"https://youtube.com/watch?v=xyz", false, false, false,
        some "137", true⟩ = StartOutcome.spawn_download ∧
    (⟨"https://youtube.com/watch?v=xyz", false, false, false,
        some "137", true⟩ : AppState).session_active = true := by
  exact ⟨by decide, rfl⟩

/-- C4 amended: `start_download` performs only input validation — empty URL,
missing folder on Android, missing quality — and its outcome is entirely
independent of whether a session is already active; whenever the three
validations pass it spawns a new download thread, even while a session is
running. -/
theorem start_download_amended (s : AppState) (b : Bool) :
    start_download (setSessionActive s b) = start_download s ∧
    (¬(pyStrip s.url_text.data).isEmpty = true →
      (s.is_android && !(s.default_path_set || s.saf_set)) = false →
      pyTruthyStr s.selected_format = true →
      start_download s = StartOutcome.spawn_download) := by
  constructor
  · rfl
  · intro h1 h2 h3
    unfold start_download
    rw [if_neg h1, h2, if_neg (by simp), h3]
    simp

/-- C4 witness: the amended theorem applied at a concrete valid state with an
active session — toggling `session_active` does not change the outcome, and
the download is spawned. -/
theorem start_download_amended_witness :
    start_download (setSessionActive ⟨"u", false, false, false,
        some "137", false⟩ true) =
      start_download ⟨"u", false, false, false, some "137", false⟩ ∧
    start_download ⟨"u", false, false, false, some "137", false⟩ =
      StartOutcome.spawn_download :=
  ⟨(start_download_amended ⟨"u", false, false, false, some "137", false⟩
      true).1,
   (start_download_amended ⟨"u", false, false, false, some "137", false⟩
      true).2 (by decide) (by decide) (by decide)⟩

/-! ### Format catalog (`_load_formats_thread`, main.py 376-387)

Python:
```
self._formats = []
for f in formats:
    if f.get("vcodec") == "none":      # skip audio-only
        continue
    height = f.get("height") or 0
    ext = f.get("ext", "")
    codec = f.get("vcodec", "").split(".")[0]
    label = f"{height}p – {codec} – {ext}"
    self._formats.append({"format_id": f["format_id"], "text": label})

# Sort by height descending
self._formats.sort(key=lambda x: int(x["text"].split("p")[0]), reverse=True)
```
`str(height)` (inside the f-string) is modelled by `pyStr`, a fuel-based
decimal renderer; `int(x.split("p")[0])` by `sortKey`; Python's stable
`list.sort(..., reverse=True)` by a stable descending insertion sort. -/

/-- The decimal digit character of `d` (`d < 10` at every use site). -/
def digitChar (d : Nat) : Char := Char.ofNat (48 + d)

/-- Fuel-based decimal rendering; `fuel > n` makes it total (see `pyStr`). -/
def natDigitsAux : Nat → Nat → List Char
  | 0, _ => []
  | fuel + 1, n =>
    if n < 10 then [digitChar n]
    else natDigitsAux fuel (n / 10) ++ [digitChar (n % 10)]

/-- Python `str(n)` for a non-negative int: its decimal digits. -/
def pyStr (n : Nat) : List Char := natDigitsAux (n + 1) n

/-- Python `int(s)` on a string of decimal digits. -/
def parseDigits (l : List Char) : Nat :=
  l.foldl (fun a c => a * 10 + (c.toNat - 48)) 0

/-- `int(text.split("p")[0])`: the digits before the first `p`. -/
def sortKey (text : List Char) : Nat :=
  parseDigits (text.takeWhile (fun c => !(c == 'p')))

/-- `codec.split(".")[0]`: the characters before the first `.`. -/
def splitDot (s : List Char) : List Char := s.takeWhile (fun c => !(c == '.'))

/-- The f-string `f"{height}p – {codec} – {ext}"`. -/
def label_text (height : Nat) (codec ext : List Char) : List Char :=
  pyStr height ++ "p – ".data ++ codec ++ " – ".data ++ ext

/-- A raw yt-dlp format dict: the keys the loop reads.  `none` models an
absent key (or a JSON `null` value, which `f.get` also returns as `None`). -/
structure RawFormat where
  format_id : String
  vcodec : Option String
  height : Option Nat
  ext : Option String
deriving DecidableEq

/-- One `{"format_id": ..., "text": ...}` entry of `self._formats`. -/
structure FormatChoice where
  format_id : String
  text : List Char
deriving DecidableEq

/-- The loop body for one format that is not skipped (main.py 379-384). -/
def mkChoice (f : RawFormat) : FormatChoice :=
  ⟨f.format_id,
    label_text (f.height.getD 0) (splitDot (f.vcodec.getD "").data)
      (f.ext.getD "").data⟩

/-- The filtering loop of main.py 377-384 (`continue` on `vcodec == "none"`;
`height or 0` maps an absent/zero height to 0). -/
def buildChoices : List RawFormat → List FormatChoice
  | [] => []
  | f :: fs =>
    if f.vcodec = some "none" then buildChoices fs
    else mkChoice f :: buildChoices fs

/-- Stable descending insertion: `x` goes before the first element whose key
is not larger — i.e. before every earlier-inserted element of equal key. -/
def insertDesc {α : Type} (key : α → Nat) (x : α) : List α → List α
  | [] => [x]
  | y :: ys =>
    if key y ≤ key x then x :: y :: ys else y :: insertDesc key x ys

/-- Stable descending sort by `key`: the model of Python's stable
`list.sort(key=..., reverse=True)`. -/
def sortDesc {α : Type} (key : α → Nat) : List α → List α
  | [] => []
  | x :: xs => insertDesc key x (sortDesc key xs)

/-- The catalog `self._formats` right after main.py 387. -/
def catalog (formats : List RawFormat) : List FormatChoice :=
  sortDesc (fun c => sortKey c.text) (buildChoices formats)

theorem digitChar_toNat {d : Nat} (hd : d < 10) :
    (digitChar d).toNat = 48 + d := by
  interval_cases d <;> decide

theorem digitChar_ne_p {d : Nat} (hd : d < 10) :
    (!(digitChar d == 'p')) = true := by
  interval_cases d <;> decide

theorem parseDigits_append (l : List Char) (c : Char) :
    parseDigits (l ++ [c]) = parseDigits l * 10 + (c.toNat - 48) := by
  unfold parseDigits
  rw [List.foldl_append]
  rfl

theorem parseDigits_natDigitsAux :
    ∀ fuel n, n < fuel → parseDigits (natDigitsAux fuel n) = n := by
  intro fuel
  induction fuel with
  | zero => intro n h; omega
  | succ fuel ih =>
    intro n h
    rw [natDigitsAux]
    split
    · rename_i h10
      have h1 : parseDigits [digitChar n] =
          0 * 10 + ((digitChar n).toNat - 48) := rfl
      rw [h1, digitChar_toNat h10]
      omega
    · rename_i h10
      push_neg at h10
      rw [parseDigits_append, ih (n / 10) (by omega),
        digitChar_toNat (Nat.mod_lt n (by omega))]
      omega

theorem natDigitsAux_ne_p :
    ∀ fuel n, ∀ c ∈ natDigitsAux fuel n, (!(c == 'p')) = true := by
  intro fuel
  induction fuel with
  | zero => intro n c hc; simp [natDigitsAux] at hc
  | succ fuel ih =>
    intro n c hc
    rw [natDigitsAux] at hc
    split at hc
    · rename_i h10
      simp only [List.mem_singleton] at hc
      rw [hc]
      exact digitChar_ne_p h10
    · rw [List.mem_append] at hc
      cases hc with
      | inl h => exact ih (n / 10) c h
      | inr h =>
        simp only [List.mem_singleton] at h
        rw [h]
        exact digitChar_ne_p (Nat.mod_lt n (by omega))

theorem takeWhile_append_stop (p : Char → Bool) :
    ∀ a : List Char, (∀ c ∈ a, p c = true) → ∀ x rest, p x = false →
      (a ++ x :: rest).takeWhile p = a := by
  intro a
  induction a with
  | nil =>
    intro _ x rest hx
    simp [List.takeWhile_cons, hx]
  | cons b bs ih =>
    intro h x rest hx
    rw [List.cons_append, List.takeWhile_cons,
      if_pos (h b (List.mem_cons_self b bs)),
      ih (fun c hc => h c (List.mem_cons_of_mem b hc)) x rest hx]

theorem sortKey_label (h : Nat) (codec ext : List Char) :
    sortKey (label_text h codec ext) = h := by
  unfold sortKey label_text
  have hp : "p – ".data = 'p' :: ' ' :: '–' :: ' ' :: [] := rfl
  rw [hp]
  simp only [List.append_assoc, List.cons_append]
  rw [takeWhile_append_stop _ (pyStr h)
    (fun c hc => natDigitsAux_ne_p (h + 1) h c hc) 'p' _ (by decide)]
  exact parseDigits_natDigitsAux (h + 1) h (Nat.lt_succ_self h)

theorem mem_insertDesc {α : Type} (key : α → Nat) (x : α) :
    ∀ l z, z ∈ insertDesc key x l ↔ z = x ∨ z ∈ l := by
  intro l
  induction l with
  | nil => intro z; simp [insertDesc]
  | cons y ys ih =>
    intro z
    rw [insertDesc]
    split
    · simp [List.mem_cons]
    · simp only [List.mem_cons, ih]
      tauto

theorem pairwise_insertDesc {α : Type} (key : α → Nat) (x : α) :
    ∀ l, List.Pairwise (fun a b => key b ≤ key a) l →
      List.Pairwise (fun a b => key b ≤ key a) (insertDesc key x l) := by
  intro l
  induction l with
  | nil => intro _; simp [insertDesc]
  | cons y ys ih =>
    intro h
    rw [List.pairwise_cons] at h
    obtain ⟨hy, hys⟩ := h
    rw [insertDesc]
    split
    · rename_i hle
      rw [List.pairwise_cons]
      refine ⟨?_, List.pairwise_cons.mpr ⟨hy, hys⟩⟩
      intro z hz
      rcases List.mem_cons.mp hz with hz | hz
      · rw [hz]; exact hle
      · exact le_trans (hy z hz) hle
    · rename_i hgt
      push_neg at hgt
      rw [List.pairwise_cons]
      refine ⟨?_, ih hys⟩
      intro z hz
      rcases (mem_insertDesc key x ys z).mp hz with hz | hz
      · rw [hz]; exact le_of_lt hgt
      · exact hy z hz

theorem perm_insertDesc {α : Type} (key : α → Nat) (x : α) :
    ∀ l, List.Perm (insertDesc key x l) (x :: l) := by
  intro l
  induction l with
  | nil => exact List.Perm.refl _
  | cons y ys ih =>
    rw [insertDesc]
    split
    · exact List.Perm.refl _
    · exact (List.Perm.cons y ih).trans (List.Perm.swap x y ys)

theorem filter_insertDesc {α : Type} (key : α → Nat) (x : α) (k : Nat) :
    ∀ l, (insertDesc key x l).filter (fun a => key a == k) =
      if key x = k then x :: l.filter (fun a => key a == k)
      else l.filter (fun a => key a == k) := by
  intro l
  induction l with
  | nil =>
    rw [insertDesc]
    by_cases hk : key x = k <;> simp [List.filter_cons, hk]
  | cons y ys ih =>
    rw [insertDesc]
    split
    · rename_i hle
      by_cases hk : key x = k <;> simp [List.filter_cons, hk]
    · rename_i hgt
      push_neg at hgt
      rw [List.filter_cons, List.filter_cons, ih]
      by_cases hk : key x = k
      · have hy : ¬(key y = k) := by omega
        simp [hk, hy]
      · by_cases hyk : key y = k <;> simp [hk, hyk]

theorem sortDesc_pairwise {α : Type} (key : α → Nat) :
    ∀ l, List.Pairwise (fun a b => key b ≤ key a) (sortDesc key l) := by
  intro l
  induction l with
  | nil => simp [sortDesc]
  | cons x xs ih =>
    rw [sortDesc]
    exact pairwise_insertDesc key x (sortDesc key xs) ih

theorem sortDesc_perm {α : Type} (key : α → Nat) :
    ∀ l, List.Perm (sortDesc key l) l := by
  intro l
  induction l with
  | nil => exact List.Perm.refl _
  | cons x xs ih =>
    rw [sortDesc]
    exact (perm_insertDesc key x (sortDesc key xs)).trans (List.Perm.cons x ih)

theorem sortDesc_filter {α : Type} (key : α → Nat) (k : Nat) :
    ∀ l, (sortDesc key l).filter (fun a => key a == k) =
      l.filter (fun a => key a == k) := by
  intro l
  induction l with
  | nil => rfl
  | cons x xs ih =>
    rw [sortDesc, filter_insertDesc, ih, List.filter_cons]
    by_cases hk : key x = k <;> simp [hk]

theorem buildChoices_mem :
    ∀ fs (c : FormatChoice), c ∈ buildChoices fs →
      ∃ f, f ∈ fs ∧ ¬(f.vcodec = some "none") ∧ c = mkChoice f := by
  intro fs
  induction fs with
  | nil => intro c hc; simp [buildChoices] at hc
  | cons f fs ih =>
    intro c hc
    rw [buildChoices] at hc
    split at hc
    · obtain ⟨g, hg, hv, he⟩ := ih c hc
      exact ⟨g, List.mem_cons_of_mem f hg, hv, he⟩
    · rename_i hv
      rcases List.mem_cons.mp hc with hc | hc
      · exact ⟨f, List.mem_cons_self f fs, hv, hc⟩
      · obtain ⟨g, hg, hv', he⟩ := ih c hc
        exact ⟨g, List.mem_cons_of_mem f hg, hv', he⟩

/-- C3 counterexample: two raw formats with the same height/codec/extension
but different `format_id` both survive — the catalog contains two entries
with the same label, so labels are not unique and duplicates are not
dropped. -/
theorem catalog_dup_label_counterexample :
    ¬ ((catalog [⟨"f1", some "avc1", some 1080, some "mp4"⟩,
        ⟨"f2", some "avc1", some 1080, some "mp4"⟩]).map
          (fun c => c.text)).Nodup := by
  decide

/-- C3 amended: for every raw format list the catalog is sorted by the label
height (the decimal number before the first `p`, which equals the source
format's `height or 0`) in descending order; it is a permutation of the
filtered extraction-order list (nothing is deduplicated); ties keep
extraction order (the key-class filtrations coincide); and every entry comes
from a raw format whose `vcodec` is not `"none"` — height-less entries are
kept with height 0, and duplicate labels are kept. -/
theorem catalog_amended (fs : List RawFormat) :
    List.Pairwise (fun a b => sortKey b.text ≤ sortKey a.text) (catalog fs) ∧
    List.Perm (catalog fs) (buildChoices fs) ∧
    (∀ k : Nat, (catalog fs).filter (fun c => sortKey c.text == k) =
      (buildChoices fs).filter (fun c => sortKey c.text == k)) ∧
    (∀ c ∈ catalog fs, ∃ f, f ∈ fs ∧ ¬(f.vcodec = some "none") ∧
      c = mkChoice f ∧ sortKey c.text = f.height.getD 0) := by
  refine ⟨sortDesc_pairwise _ _, sortDesc_perm _ _, fun k => sortDesc_filter _ k _, ?_⟩
  intro c hc
  rw [catalog] at hc
  have hmem : c ∈ buildChoices fs :=
    (sortDesc_perm (fun c => sortKey c.text) (buildChoices fs)).mem_iff.mp hc
  obtain ⟨f, hf, hv, he⟩ := buildChoices_mem fs c hmem
  refine ⟨f, hf, hv, he, ?_⟩
  rw [he]
  exact sortKey_label _ _ _

/-- C3 witness: the amended theorem applied to a concrete two-format list —
the catalog is height-descending sorted and its 1080p entry is traced back to
its raw format. -/
theorem catalog_amended_witness :
    List.Pairwise (fun a b => sortKey b.text ≤ sortKey a.text)
      (catalog [⟨"f1", some "avc1", some 720, some "mp4"⟩,
        ⟨"f2", some "avc1", some 1080, some "mp4"⟩]) ∧
    (∃ f, f ∈ [⟨"f1", some "avc1", some 720, some "mp4"⟩,
        ⟨"f2", some "avc1", some 1080, some "mp4"⟩] ∧
      ¬(RawFormat.vcodec f = some "none") ∧
      mkChoice ⟨"f2", some "avc1", some 1080, some "mp4"⟩ = mkChoice f ∧
      sortKey (mkChoice ⟨"f2", some "avc1", some 1080, some "mp4"⟩).text =
        (RawFormat.height f).getD 0) :=
  ⟨(catalog_amended _).1,
   (catalog_amended _).2.2.2 (mkChoice ⟨"f2", some "avc1", some 1080, some "mp4"⟩)
     (by decide)⟩

/-- C5 counterexample: on the scenario input the built catalog is not the
claimed `["1080p • MP4", "720p • MP4"]` — the duplicate is kept and the label
format differs. -/
theorem catalog_scenario_counterexample :
    (catalog [⟨"f1", some "avc1", some 1080, some "mp4"⟩,
      ⟨"f2", some "avc1", some 1080, some "mp4"⟩,
      ⟨"f3", some "avc1", some 720, some "mp4"⟩,
      ⟨"f4", some "none", none, none⟩]).map (fun c => String.mk c.text) ≠
    ["1080p • MP4", "720p • MP4"] := by
  decide

/-- C5 amended: on the scenario input the catalog labels are exactly
`["1080p – avc1 – mp4", "1080p – avc1 – mp4", "720p – avc1 – mp4"]`: the
audio-only entry (`vcodec == "none"`) is dropped, but the duplicate 1080p
entry is kept, and labels follow the `"{height}p – {codec} – {ext}"`
format. -/
theorem catalog_scenario_amended :
    (catalog [⟨"f1", some "avc1", some 1080, some "mp4"⟩,
      ⟨"f2", some "avc1", some 1080, some "mp4"⟩,
      ⟨"f3", some "avc1", some 720, some "mp4"⟩,
      ⟨"f4", some "none", none, none⟩]).map (fun c => String.mk c.text) =
    ["1080p – avc1 – mp4", "1080p – avc1 – mp4", "720p – avc1 – mp4"] := by
  decide

/-! ### SAF download path (`_download_thread` / `_my_hook`, main.py 460-503)

Python (the SAF branch of `_download_thread`):
```
self.progress = 0
self._set_status("Preparing…")
...
info = yt_dlp.YoutubeDL({"quiet": True}).extract_info(url, download=False)
title = info.get("title", "video"); ext = info.get("ext", "mp4")
safe_name = ...; filename = f"{safe_name}.{ext}"
file_uri = self._saf.create_file(filename)
if not file_uri:
    self._set_status("Failed to create file in SAF folder")
    return
def _my_hook(d):
    if d["status"] == "downloading":
        self._progress_hook(d)
    elif d["status"] == "finished":
        tmp_path = d["filepath"]
        with open(tmp_path, "rb") as src, SAFOutput(self._saf, file_uri) as dst:
            while True:
                chunk = src.read(1024 * 1024)
                if not chunk:
                    break
                os.write(dst.fd, chunk)
        os.unlink(tmp_path)
        self._progress_hook({"status": "finished"})
...
self._set_status(f"Downloading: {title}")
with yt_dlp.YoutubeDL(ydl_opts) as ydl:
    ydl.download([url])
self._set_status("Download finished")
self._record_recent(title ...)
self.progress = 100
```
The local temporary file is created only by the transfer (`ydl.download`,
event `Ev.run_download`); its size is `tmp_size` of the `finished` hook.  A
read of a regular file returns `min (1024*1024) remaining` bytes; the loop is
embedded with a fuel argument (`size + 1` steps always suffice since every
non-final iteration consumes at least one byte). -/

/-- The chunk sizes written by the copy loop, given the remaining byte count;
structural recursion on the fuel. -/
def safCopyAux : Nat → Nat → List Nat
  | 0, _ => []
  | fuel + 1, size =>
    if size = 0 then []
    else min (1024 * 1024) size :: safCopyAux fuel (size - 1024 * 1024)

/-- The chunk sizes written when copying a temporary file of `size` bytes. -/
def safCopyWrites (size : Nat) : List Nat := safCopyAux (size + 1) size

/-- Embedding of `_my_hook` (main.py 485-497): the events of one progress
callback of the SAF path.  On `finished` the copy loop runs, the output
stream is closed when the `with` block exits, the temp file is unlinked, and
`_progress_hook({"status": "finished"})` fires. -/
def my_hook (d : HookDict) : List Ev :=
  if d.status = "downloading" then progress_hook d
  else if d.status = "finished" then
    (safCopyWrites d.tmp_size).map Ev.write_chunk ++
      Ev.close_output :: Ev.unlink_tmp ::
        progress_hook ⟨"finished", none, none, none, 0⟩
  else []

/-- Embedding of the SAF branch of `_download_thread` (main.py 460-503):
`created` is the truthiness of `self._saf.create_file(filename)`, `hooks` the
progress callbacks the transfer fires (each expanded by `my_hook`). -/
def download_thread_saf (title ext : String) (created : Bool)
    (hooks : List HookDict) : List Ev :=
  Ev.update_progress 0 :: Ev.set_status "Preparing…" :: Ev.extract_info ::
    Ev.create_file (sanitizedFilename title ext) ::
    (if created then
      Ev.set_status ("Downloading: " ++ title) :: Ev.run_download ::
        ((hooks.map my_hook).flatten ++
          [Ev.set_status "Download finished", Ev.record title,
            Ev.update_progress 100])
    else [Ev.set_status "Failed to create file in SAF folder"])

/-- Is this event a chunk write? -/
def isWriteEv : Ev → Bool
  | Ev.write_chunk _ => true
  | _ => false

/-- C7: when `create_file` returns no handle the SAF download path sets the
failure status and returns at once — the trace is exactly the four
preparation events plus the failure status: the transfer (`run_download`,
the only step that creates the local temporary file) is never started, no
byte is written, no temp file is unlinked, and the session ends on the
`SinkCreationFailure` status message. -/
theorem download_thread_saf_create_failure (title ext : String)
    (hooks : List HookDict) :
    download_thread_saf title ext false hooks =
      [Ev.update_progress 0, Ev.set_status "Preparing…", Ev.extract_info,
        Ev.create_file (sanitizedFilename title ext),
        Ev.set_status "Failed to create file in SAF folder"] ∧
    (download_thread_saf title ext false hooks).count Ev.run_download = 0 ∧
    (download_thread_saf title ext false hooks).countP isWriteEv = 0 ∧
    (download_thread_saf title ext false hooks).count Ev.unlink_tmp = 0 ∧
    (download_thread_saf title ext false hooks).getLast? =
      some (Ev.set_status "Failed to create file in SAF folder") := by
  refine ⟨rfl, ?_, ?_, ?_, rfl⟩
  · simp [download_thread_saf, List.count_cons]
  · simp [download_thread_saf, List.countP_cons, isWriteEv]
  · simp [download_thread_saf, List.count_cons]

/-- C8: for a 10 MiB temporary file the `finished` hook performs exactly ten
1 MiB chunk writes, then one stream close (the commit) and only then the
unlink of the temporary file, followed by the 100% progress event. -/
theorem my_hook_ten_mib :
    my_hook ⟨"finished", none, none, none, 10 * 1024 * 1024⟩ =
      (List.replicate 10 (1024 * 1024)).map Ev.write_chunk ++
        [Ev.close_output, Ev.unlink_tmp, Ev.update_progress 100] ∧
    (my_hook ⟨"finished", none, none, none, 10 * 1024 * 1024⟩).countP
      isWriteEv = 10 ∧
    (my_hook ⟨"finished", none, none, none, 10 * 1024 * 1024⟩).count
      (Ev.write_chunk (1024 * 1024)) = 10 ∧
    (my_hook ⟨"finished", none, none, none, 10 * 1024 * 1024⟩).count
      Ev.close_output = 1 ∧
    (my_hook ⟨"finished", none, none, none, 10 * 1024 * 1024⟩).count
      Ev.unlink_tmp = 1 ∧
    (my_hook ⟨"finished", none, none, none, 10 * 1024 * 1024⟩).get? 10 =
      some Ev.close_output ∧
    (my_hook ⟨"finished", none, none, none, 10 * 1024 * 1024⟩).get? 11 =
      some Ev.unlink_tmp := by
  decide

end Main
